import Mathlib

/-!
Verification of the dual-backend persistence layer of the episodic-memory
repository: a shallow embedding of the SQLite provider
(src/providers/sqlite-provider.ts), the PostgreSQL provider
(src/providers/postgres-provider.ts / dist/providers/postgres-provider.js)
and the SQLite-to-PostgreSQL migration tool (src/migrate.ts), together with
theorems about their observable behaviour.

Modelling conventions:
- tables are lists of row records; primary-key upserts replace in place or
  append;
- embedding components (floats in the source) are modelled as integers:
  every claim treats the embedding values abstractly, and vector distance is
  modelled as squared Euclidean distance, which induces the same ranking as
  the L2 distances used by sqlite-vec and pgvector (the square root is
  monotone); no claim below concerns absolute distance values;
- ISO-8601 timestamp strings are compared lexicographically, which agrees
  with both SQLite TEXT comparison and the chronological order PostgreSQL
  derives from parsing such strings;
- JSON serialisation of tool inputs (JSON.stringify on write, JSON.parse on
  read) is treated as the identity on the serialised form.
-/

namespace EpisodicMemory

/-- Tool-call DTO as constructed throughout the source (src/types.js shape):
`toolInput` is kept in its serialised form. -/
structure ToolCall where
  id : String
  exchangeId : String
  toolName : String
  toolInput : Option String
  toolResult : Option String
  isError : Bool
  timestamp : String
deriving DecidableEq, Repr

/-- Exchange DTO (`ConversationExchange` in src/types.js, fields as used by
both providers and the migration tool). The optional `toolCalls` field is
modelled as a list; the source guards every use with a non-emptiness check,
so `undefined` and `[]` are observationally identical. -/
structure ConversationExchange where
  id : String
  project : String
  timestamp : String
  userMessage : String
  assistantMessage : String
  archivePath : String
  lineStart : Int
  lineEnd : Int
  parentUuid : Option String
  isSidechain : Bool
  sessionId : Option String
  cwd : Option String
  gitBranch : Option String
  claudeVersion : Option String
  thinkingLevel : Option String
  thinkingDisabled : Bool
  thinkingTriggers : Option String
  toolCalls : List ToolCall
deriving DecidableEq, Repr

/-- Row of the `exchanges` table. The SQLite schema and the PostgreSQL
schema declare the same columns; `embedding` is populated only by the
PostgreSQL provider (the SQLite provider keeps vectors in the separate
`vec_exchanges` virtual table and leaves this column NULL). -/
structure ExchangeRow where
  id : String
  project : String
  timestamp : String
  user_message : String
  assistant_message : String
  archive_path : String
  line_start : Int
  line_end : Int
  embedding : Option (List ℤ)
  last_indexed : Option Int
  parent_uuid : Option String
  is_sidechain : Bool
  session_id : Option String
  cwd : Option String
  git_branch : Option String
  claude_version : Option String
  thinking_level : Option String
  thinking_disabled : Bool
  thinking_triggers : Option String
deriving DecidableEq, Repr

/-- Row of the SQLite `vec_exchanges` vec0 virtual table. -/
structure VecRow where
  id : String
  embedding : List ℤ
deriving DecidableEq, Repr

/-- Row of the `tool_calls` table (identical columns on both backends). -/
structure ToolCallRow where
  id : String
  exchange_id : String
  tool_name : String
  tool_input : Option String
  tool_result : Option String
  is_error : Bool
  timestamp : String
deriving DecidableEq, Repr

/-- State of the SQLite backend: the three tables the provider touches. -/
structure SqliteState where
  exchanges : List ExchangeRow
  vec_exchanges : List VecRow
  tool_calls : List ToolCallRow
deriving DecidableEq, Repr

/-- State of the PostgreSQL backend (the `synced_files` and `summaries`
tables are not involved in any claim and are omitted). -/
structure PgState where
  exchanges : List ExchangeRow
  tool_calls : List ToolCallRow
deriving DecidableEq, Repr

/-- JavaScript `x || null` / `x || undefined` on an optional string: the
empty string is falsy and collapses to null. -/
def orNull : Option String → Option String
  | some s => if s = "" then none else some s
  | none => none

/-- Primary-key upsert on a list-modelled table: SQLite `INSERT OR REPLACE`
and PostgreSQL `ON CONFLICT ... DO UPDATE` both leave exactly the new row
under its key. If the key is present the row is replaced in place,
otherwise it is appended. -/
def upsertBy (key : α → String) (x : α) (t : List α) : List α :=
  if t.any (fun r => key r = key x) then
    t.map (fun r => if key r = key x then x else r)
  else
    t ++ [x]

/-- Lexicographic order on the character lists of two strings; the SQL
comparisons `timestamp >= after` and `timestamp <= before` on ISO-8601
strings are modelled with it. -/
def charListLe : List Char → List Char → Bool
  | [], _ => true
  | _ :: _, [] => false
  | a :: as, b :: bs => if a = b then charListLe as bs else decide (a < b)

/-- Timestamp comparison used by the time-window filters. -/
def tsLe (a b : String) : Bool := charListLe a.data b.data

/-- The optional time-window predicate appearing in every search query of
both providers: `e.timestamp >= after AND e.timestamp <= before`, each
conjunct present only when the option is given. -/
def timeOk (afterOpt beforeOpt : Option String) (ts : String) : Bool :=
  (match afterOpt with
   | none => true
   | some a => tsLe a ts) &&
  (match beforeOpt with
   | none => true
   | some b => tsLe ts b)

/-- Search options (`SearchOptions` in src/db-provider.ts); the source
defaults `limit` to 10 at each call site. -/
structure SearchOptions where
  limit : Nat := 10
  after : Option String := none
  before : Option String := none
deriving DecidableEq, Repr

/-- Search result row: the selected `e.*` columns plus the computed
`distance` column (squared Euclidean for vector search, 0 for text
search). -/
structure RawSearchResult where
  row : ExchangeRow
  distance : ℤ
deriving DecidableEq, Repr

/-- Insert into a list sorted by the Boolean relation `le` (auxiliary to
`orderBy`). -/
def insertSorted (le : α → α → Bool) (x : α) : List α → List α
  | [] => [x]
  | y :: ys => if le x y then x :: y :: ys else y :: insertSorted le x ys

/-- Deterministic model of SQL `ORDER BY`: a stable insertion sort by the
Boolean relation `le`. -/
def orderBy (le : α → α → Bool) : List α → List α
  | [] => []
  | x :: xs => insertSorted le x (orderBy le xs)

/-- Squared Euclidean distance between two vectors; induces the ranking
used by both sqlite-vec and pgvector L2 search. -/
def sqDist (a b : List ℤ) : ℤ := (List.zipWith (fun x y => (x - y) * (x - y)) a b).sum

/-- Row written to `exchanges` by SqliteProvider.insertExchange
(db-provider.ts source, sqlite provider lines 348-375): the SQL column
list omits `embedding`, so it stays NULL, and `last_indexed` is set to
`Date.now()`. -/
def sqliteExchangeRowOf (now : Int) (e : ConversationExchange) : ExchangeRow :=
  { id := e.id
    project := e.project
    timestamp := e.timestamp
    user_message := e.userMessage
    assistant_message := e.assistantMessage
    archive_path := e.archivePath
    line_start := e.lineStart
    line_end := e.lineEnd
    embedding := none
    last_indexed := some now
    parent_uuid := orNull e.parentUuid
    is_sidechain := e.isSidechain
    session_id := orNull e.sessionId
    cwd := orNull e.cwd
    git_branch := orNull e.gitBranch
    claude_version := orNull e.claudeVersion
    thinking_level := orNull e.thinkingLevel
    thinking_disabled := e.thinkingDisabled
    thinking_triggers := orNull e.thinkingTriggers }

/-- Row written to `exchanges` by PostgresProvider.insertExchange
(postgres-provider.js lines 168-213): same fields plus the embedding
column. -/
def pgExchangeRowOf (now : Int) (e : ConversationExchange) (emb : List ℤ) : ExchangeRow :=
  { sqliteExchangeRowOf now e with embedding := some emb }

/-- Row written to `tool_calls` by either provider for one tool call of the
inserted exchange. -/
def toolCallRowOf (tc : ToolCall) : ToolCallRow :=
  { id := tc.id
    exchange_id := tc.exchangeId
    tool_name := tc.toolName
    tool_input := tc.toolInput
    tool_result := orNull tc.toolResult
    is_error := tc.isError
    timestamp := tc.timestamp }

/-- SqliteProvider.insertExchange: `INSERT OR REPLACE` of the exchange row;
delete-then-insert of the vector entry (the vec0 virtual table does not
support REPLACE); `INSERT OR REPLACE` of each tool call carried by the
exchange. No statement removes tool calls that are not in the DTO. -/
def sqliteInsertExchange (now : Int) (e : ConversationExchange) (emb : List ℤ)
    (s : SqliteState) : SqliteState :=
  { exchanges := upsertBy (fun r => r.id) (sqliteExchangeRowOf now e) s.exchanges
    vec_exchanges :=
      (s.vec_exchanges.filter (fun v => v.id ≠ e.id)) ++ [⟨e.id, emb⟩]
    tool_calls :=
      e.toolCalls.foldl (fun t tc => upsertBy (fun r => r.id) (toolCallRowOf tc) t)
        s.tool_calls }

/-- SqliteProvider.deleteExchange (db-provider.ts sqlite provider lines
410-418): deletes from `vec_exchanges` and from `exchanges` only. The
provider issues no statement against `tool_calls`, the schema's foreign key
carries no ON DELETE action, and the connection never enables foreign-key
enforcement, so tool-call rows are left in place. -/
def sqliteDeleteExchange (id : String) (s : SqliteState) : SqliteState :=
  { exchanges := s.exchanges.filter (fun r => r.id ≠ id)
    vec_exchanges := s.vec_exchanges.filter (fun v => v.id ≠ id)
    tool_calls := s.tool_calls }

/-- PostgresProvider.deleteExchange (postgres-provider.js lines 249-254):
`DELETE FROM exchanges WHERE id = $1`; the schema's
`REFERENCES exchanges(id) ON DELETE CASCADE` removes the owned tool
calls. -/
def pgDeleteExchange (id : String) (s : PgState) : PgState :=
  { exchanges := s.exchanges.filter (fun r => r.id ≠ id)
    tool_calls := s.tool_calls.filter (fun t => t.exchange_id ≠ id) }

/-- The statements issued inside PostgresProvider.insertExchange's
transaction, in program order. -/
inductive PgStmt where
  | upsertExchange : ExchangeRow → PgStmt
  | upsertToolCall : ToolCallRow → PgStmt
deriving DecidableEq, Repr

/-- Effect of one transaction statement on the database state. -/
def applyPgStmt (s : PgState) : PgStmt → PgState
  | .upsertExchange r => { s with exchanges := upsertBy (fun e => e.id) r s.exchanges }
  | .upsertToolCall r => { s with tool_calls := upsertBy (fun t => t.id) r s.tool_calls }

/-- Statement sequence of PostgresProvider.insertExchange (postgres-provider.js
lines 160-248): one upsert of the exchange row (embedding included), then one
upsert per tool call carried by the exchange. -/
def pgInsertStmts (now : Int) (e : ConversationExchange) (emb : List ℤ) : List PgStmt :=
  .upsertExchange (pgExchangeRowOf now e emb) ::
    e.toolCalls.map (fun tc => .upsertToolCall (toolCallRowOf tc))

/-- Run the statements of a transaction in order against a working state;
`fails i = true` means the i-th statement raises. Returns `none` when some
statement raised. -/
def runStmtsFrom (fails : Nat → Bool) : Nat → List PgStmt → PgState → Option PgState
  | _, [], s => some s
  | i, st :: rest, s =>
      if fails i then none else runStmtsFrom fails (i + 1) rest (applyPgStmt s st)

/-- Observable outcome of a call that may throw: the database state the
caller can observe afterwards, and whether the call raised. -/
structure TxResult where
  state : PgState
  errored : Bool
deriving DecidableEq, Repr

/-- PostgresProvider.insertExchange with an explicit failure oracle: the
statements run inside BEGIN ... COMMIT; on any statement failure the
transaction is rolled back (the pre-call state is what remains visible) and
the error is rethrown. -/
def pgInsertExchange (fails : Nat → Bool) (now : Int) (e : ConversationExchange)
    (emb : List ℤ) (s : PgState) : TxResult :=
  match runStmtsFrom fails 0 (pgInsertStmts now e emb) s with
  | some committed => ⟨committed, false⟩
  | none => ⟨s, true⟩

/-- The failure-free run of PostgresProvider.insertExchange: all statements
of the transaction applied in order. -/
def pgInsertExchangeOk (now : Int) (e : ConversationExchange) (emb : List ℤ)
    (s : PgState) : PgState :=
  (pgInsertStmts now e emb).foldl applyPgStmt s

/-- ASCII-only lower-casing: the case folding SQLite applies inside its
default LIKE comparison, and the folding PostgreSQL ILIKE applies to ASCII
letters under every locale. -/
def asciiLower (c : Char) : Char :=
  if 'A' ≤ c ∧ c ≤ 'Z' then Char.ofNat (c.toNat + 32) else c

/-- Character comparison of SQLite's default LIKE: case-insensitive for
ASCII letters, exact beyond ASCII (the provider never sets
`case_sensitive_like`). -/
def likeCharEq (a b : Char) : Bool := asciiLower a = asciiLower b

/-- Character comparison of PostgreSQL ILIKE restricted to the ASCII
folding every locale performs; no stored text or query in the claims below
leaves ASCII. -/
def ilikeCharEq (a b : Char) : Bool := asciiLower a = asciiLower b

/-- Does the pattern match at the head of the text, character-wise under
`eq`? -/
def headMatch (eq : Char → Char → Bool) : List Char → List Char → Bool
  | [], _ => true
  | _ :: _, [] => false
  | a :: as, b :: bs => eq a b && headMatch eq as bs

/-- Does the pattern occur somewhere in the text under `eq`? Models
`column LIKE \x27%query%\x27` for a query without LIKE metacharacters. -/
def subMatch (eq : Char → Char → Bool) (pat : List Char) : List Char → Bool
  | [] => headMatch eq pat []
  | c :: rest => headMatch eq pat (c :: rest) || subMatch eq pat rest

/-- The WHERE predicate of SqliteProvider.searchByText: default-LIKE
substring match on either message column plus the time window. -/
def sqliteTextPred (q : String) (afterOpt beforeOpt : Option String)
    (e : ExchangeRow) : Bool :=
  (subMatch likeCharEq q.data e.user_message.data ||
   subMatch likeCharEq q.data e.assistant_message.data) &&
  timeOk afterOpt beforeOpt e.timestamp

/-- The WHERE predicate of PostgresProvider.searchByText: ILIKE substring
match on either message column plus the time window. -/
def pgTextPred (q : String) (afterOpt beforeOpt : Option String)
    (e : ExchangeRow) : Bool :=
  (subMatch ilikeCharEq q.data e.user_message.data ||
   subMatch ilikeCharEq q.data e.assistant_message.data) &&
  timeOk afterOpt beforeOpt e.timestamp

/-- SqliteProvider.searchByText (db-provider.ts sqlite provider lines
495-537): filter, order by timestamp descending, LIMIT, distance column
fixed at 0. -/
def sqliteSearchByText (q : String) (opts : SearchOptions) (s : SqliteState) :
    List RawSearchResult :=
  ((orderBy (fun a b => tsLe b.timestamp a.timestamp)
      (s.exchanges.filter (sqliteTextPred q opts.after opts.before))).take opts.limit).map
    (fun e => ⟨e, 0⟩)

/-- PostgresProvider.searchByText (postgres-provider.js lines 338-403):
filter, order by timestamp descending, LIMIT, distance column fixed at 0. -/
def pgSearchByText (q : String) (opts : SearchOptions) (s : PgState) :
    List RawSearchResult :=
  ((orderBy (fun a b => tsLe b.timestamp a.timestamp)
      (s.exchanges.filter (pgTextPred q opts.after opts.before))).take opts.limit).map
    (fun e => ⟨e, 0⟩)

/-- SqliteProvider.searchByVector (db-provider.ts sqlite provider lines
447-493). The vec0 constraints `embedding MATCH ? AND k = ?` select the
`limit` nearest vector rows; the join back to `exchanges` and the residual
time-window conditions filter that k-NN set afterwards; the final ORDER BY
sorts by distance ascending. -/
def sqliteSearchByVector (emb : List ℤ) (opts : SearchOptions) (s : SqliteState) :
    List RawSearchResult :=
  let knn :=
    (orderBy (fun a b => decide (sqDist a.embedding emb ≤ sqDist b.embedding emb))
        s.vec_exchanges).take opts.limit
  let joined := knn.filterMap (fun v =>
    match s.exchanges.find? (fun e => e.id = v.id) with
    | some e =>
        if timeOk opts.after opts.before e.timestamp then
          some (⟨e, sqDist v.embedding emb⟩ : RawSearchResult)
        else none
    | none => none)
  orderBy (fun a b => decide (a.distance ≤ b.distance)) joined

/-- Distance of a PostgreSQL exchange row to a query vector (rows passing
the `embedding IS NOT NULL` condition carry a vector). -/
def pgRowDist (emb : List ℤ) (e : ExchangeRow) : ℤ :=
  sqDist (e.embedding.getD []) emb

/-- PostgresProvider.searchByVector (postgres-provider.js lines 273-337):
WHERE embedding IS NOT NULL plus the time window, ORDER BY distance
ascending, then LIMIT. -/
def pgSearchByVector (emb : List ℤ) (opts : SearchOptions) (s : PgState) :
    List RawSearchResult :=
  ((orderBy (fun a b => decide (pgRowDist emb a ≤ pgRowDist emb b))
      (s.exchanges.filter (fun e =>
        e.embedding.isSome && timeOk opts.after opts.before e.timestamp))).take
    opts.limit).map (fun e => ⟨e, pgRowDist emb e⟩)

/-- The `totalExchanges` field of PostgresProvider.getStats:
`SELECT COUNT(*) FROM exchanges`. -/
def pgTotalExchanges (s : PgState) : Nat := s.exchanges.length

/-- SQLite-side `SELECT COUNT(*) as count FROM exchanges` used by the
migration tool. -/
def sqliteCountExchanges (s : SqliteState) : Nat := s.exchanges.length

/-- Tool-call DTO reconstructed from a SQLite row by the migration tool
(src/migrate.ts lines 149-157): empty-string `tool_input` and `tool_result`
are falsy in JavaScript and collapse to `undefined`. -/
def toolCallOfRow (tc : ToolCallRow) : ToolCall :=
  { id := tc.id
    exchangeId := tc.exchange_id
    toolName := tc.tool_name
    toolInput := orNull tc.tool_input
    toolResult := orNull tc.tool_result
    isError := tc.is_error
    timestamp := tc.timestamp }

/-- Exchange DTO reconstructed from a SQLite row by the migration tool
(src/migrate.ts lines 160-179). -/
def exchangeOfRow (row : ExchangeRow) (tcs : List ToolCall) : ConversationExchange :=
  { id := row.id
    project := row.project
    timestamp := row.timestamp
    userMessage := row.user_message
    assistantMessage := row.assistant_message
    archivePath := row.archive_path
    lineStart := row.line_start
    lineEnd := row.line_end
    parentUuid := orNull row.parent_uuid
    isSidechain := row.is_sidechain
    sessionId := orNull row.session_id
    cwd := orNull row.cwd
    gitBranch := orNull row.git_branch
    claudeVersion := orNull row.claude_version
    thinkingLevel := orNull row.thinking_level
    thinkingDisabled := row.thinking_disabled
    thinkingTriggers := orNull row.thinking_triggers
    toolCalls := tcs }

/-- Structural helper for `chunks`: the fuel only bounds the recursion
depth and is immaterial whenever it is at least the list length. -/
def chunksFuel (bs : Nat) : Nat → List α → List (List α)
  | _, [] => []
  | 0, l => [l]
  | fuel + 1, x :: xs => (x :: xs.take (bs - 1)) :: chunksFuel bs fuel (xs.drop (bs - 1))

/-- The batch slicing `allExchanges.slice(i, i + batchSize)` of the
migration loop, for batch sizes of at least 1 (the JavaScript loop does not
terminate for batch size 0). -/
def chunks (bs : Nat) (l : List α) : List (List α) := chunksFuel bs l.length l

/-- Tally of one migration run as printed by src/migrate.ts: `processed` is
reported as "Migrated". -/
structure MigrateCounts where
  processed : Nat
  skipped : Nat
  errors : Nat
deriving DecidableEq, Repr

/-- Per-row body of the migration loop (src/migrate.ts lines 134-190): look
up the vector entry by identifier — if absent, count the row as skipped;
otherwise collect its tool calls, rebuild the full DTO and, unless this is
a dry run, upsert it through the PostgreSQL provider. In this model the
per-row try/catch never fires (inserts are total), so `errors` stays 0. -/
def migrateRow (dryRun : Bool) (now : Int) (src : SqliteState)
    (acc : MigrateCounts × PgState) (row : ExchangeRow) : MigrateCounts × PgState :=
  match src.vec_exchanges.find? (fun v => v.id = row.id) with
  | none => ({ acc.1 with skipped := acc.1.skipped + 1 }, acc.2)
  | some v =>
      let tcs := src.tool_calls.filter (fun t => t.exchange_id = row.id)
      let ex := exchangeOfRow row (tcs.map toolCallOfRow)
      (({ acc.1 with processed := acc.1.processed + 1 } : MigrateCounts),
        if dryRun then acc.2 else pgInsertExchangeOk now ex v.embedding acc.2)

/-- migrateToPostgres (src/migrate.ts lines 47-213) on an opened SQLite
store `src` and target PostgreSQL state `pg0`: read all exchange rows
ordered by timestamp, slice them into batches (the batch boundaries only
drive progress printing), and run the per-row body over every row in
order. Returns the final tally and the final PostgreSQL state. -/
def migrateToPostgres (src : SqliteState) (pg0 : PgState) (batchSize : Nat)
    (dryRun : Bool) (now : Int) : MigrateCounts × PgState :=
  (chunks batchSize (orderBy (fun a b => tsLe a.timestamp b.timestamp) src.exchanges)).foldl
    (fun acc batch => batch.foldl (migrateRow dryRun now src) acc)
    (⟨0, 0, 0⟩, pg0)

/-- verifyMigration (src/migrate.ts lines 218-273): returns whether the
SQLite exchange count equals the PostgreSQL `totalExchanges`; the second
component is the "Missing" figure printed on failure,
`sqliteExchanges - pgStats.totalExchanges`. -/
def verifyMigration (src : SqliteState) (pg : PgState) : Bool × Int :=
  (decide (sqliteCountExchanges src = pgTotalExchanges pg),
    (sqliteCountExchanges src : Int) - (pgTotalExchanges pg : Int))

/-- A minimal exchange row template; fixtures override individual fields. -/
def baseRow : ExchangeRow :=
  { id := "e1"
    project := "proj"
    timestamp := "2025-01-01T12:00:00Z"
    user_message := "hello"
    assistant_message := "world"
    archive_path := "/archive/conv.jsonl"
    line_start := 1
    line_end := 2
    embedding := none
    last_indexed := none
    parent_uuid := none
    is_sidechain := false
    session_id := none
    cwd := none
    git_branch := none
    claude_version := none
    thinking_level := none
    thinking_disabled := false
    thinking_triggers := none }

/-- A minimal exchange DTO template; fixtures override individual fields. -/
def baseExchange : ConversationExchange :=
  { id := "e1"
    project := "proj"
    timestamp := "2025-01-01T12:00:00Z"
    userMessage := "hello"
    assistantMessage := "world"
    archivePath := "/archive/conv.jsonl"
    lineStart := 1
    lineEnd := 2
    parentUuid := none
    isSidechain := false
    sessionId := none
    cwd := none
    gitBranch := none
    claudeVersion := none
    thinkingLevel := none
    thinkingDisabled := false
    thinkingTriggers := none
    toolCalls := [] }

/-- Fixture for the cascade claim: one exchange with a vector entry and one
owned tool call, plus a second unrelated exchange with its own tool call. -/
def cascadeSqlite : SqliteState :=
  { exchanges := [baseRow, { baseRow with id := "e2" }]
    vec_exchanges := [⟨"e1", [1]⟩, ⟨"e2", [2]⟩]
    tool_calls := [⟨"t1", "e1", "Read", none, none, false, "2025-01-01T12:00:01Z"⟩,
                   ⟨"t2", "e2", "Write", none, none, false, "2025-01-01T12:00:02Z"⟩] }

/-- PostgreSQL fixture mirroring `cascadeSqlite`. -/
def cascadePg : PgState :=
  { exchanges := [{ baseRow with embedding := some [1] },
                  { baseRow with id := "e2", embedding := some [2] }]
    tool_calls := [⟨"t1", "e1", "Read", none, none, false, "2025-01-01T12:00:01Z"⟩,
                   ⟨"t2", "e2", "Write", none, none, false, "2025-01-01T12:00:02Z"⟩] }

/-- Fixture for the k-NN-then-filter claim: exchanges A and B fall inside
the 2025 window, exchange C is from 2020; C's vector is nearest to the
query. -/
def knnSqlite : SqliteState :=
  { exchanges := [{ baseRow with id := "A", timestamp := "2025-01-02T00:00:00Z" },
                  { baseRow with id := "B", timestamp := "2025-01-03T00:00:00Z" },
                  { baseRow with id := "C", timestamp := "2020-01-01T00:00:00Z" }]
    vec_exchanges := [⟨"A", [5]⟩, ⟨"B", [6]⟩, ⟨"C", [0]⟩]
    tool_calls := [] }

/-- PostgreSQL fixture mirroring `knnSqlite`. -/
def knnPg : PgState :=
  { exchanges :=
      [{ baseRow with id := "A", timestamp := "2025-01-02T00:00:00Z", embedding := some [5] },
       { baseRow with id := "B", timestamp := "2025-01-03T00:00:00Z", embedding := some [6] },
       { baseRow with id := "C", timestamp := "2020-01-01T00:00:00Z", embedding := some [0] }]
    tool_calls := [] }

/-- First write of exchange e1, carrying tool call t1. -/
def reindexTool1 : ToolCall :=
  ⟨"t1", "e1", "Read", none, none, false, "2025-01-01T12:00:01Z"⟩

/-- Reindexed write of exchange e1, carrying tool call t2 instead. -/
def reindexTool2 : ToolCall :=
  ⟨"t2", "e1", "Write", none, none, false, "2025-01-01T12:00:02Z"⟩

/-- Exchange e1 as first indexed (tool call t1). -/
def reindexE1 : ConversationExchange := { baseExchange with toolCalls := [reindexTool1] }

/-- Exchange e1 as reindexed (tool call t2 only). -/
def reindexE2 : ConversationExchange :=
  { baseExchange with userMessage := "second", toolCalls := [reindexTool2] }

/-- Fixture for the text-search case claims: a single stored exchange
whose user message contains "docker" in lower case only. -/
def caseSqlite : SqliteState :=
  { exchanges := [{ baseRow with user_message := "use docker now", assistant_message := "resp" }]
    vec_exchanges := [⟨"e1", [1]⟩]
    tool_calls := [] }

/-- The stored row of the case fixture. -/
def caseRow : ExchangeRow :=
  { baseRow with user_message := "use docker now", assistant_message := "resp" }

/-- PostgreSQL fixture mirroring `caseSqlite`. -/
def casePg : PgState :=
  { exchanges := [{ caseRow with embedding := some [1] }], tool_calls := [] }

/-- Fixture for the window-inclusivity witness: one exchange inside the
window. -/
def windowRow : ExchangeRow := { baseRow with timestamp := "2025-06-15T00:00:00Z" }

/-- Embedded-store window fixture. -/
def windowSqlite : SqliteState :=
  { exchanges := [windowRow], vec_exchanges := [⟨"e1", [1]⟩], tool_calls := [] }

/-- Server-store window fixture. -/
def windowPg : PgState :=
  { exchanges := [{ windowRow with embedding := some [1] }], tool_calls := [] }

/-- Does an exchange row of the embedded store have a vector entry
(migrate.ts: `vectorStmt.get(row.id)` non-empty)? Rows without one are
skipped by the migration. -/
def hasVec (src : SqliteState) (r : ExchangeRow) : Bool :=
  (src.vec_exchanges.find? (fun v => v.id = r.id)).isSome

/-- Identifiers of the 15-row migration fixture. -/
def migIds : List String :=
  ["a", "b", "c", "d", "e", "f", "g", "h", "i", "j", "k", "l", "m", "n", "o"]

/-- One row of the 15-row migration fixture. -/
def migRow (i : String) : ExchangeRow := { baseRow with id := i, timestamp := i }

/-- Embedded store with 15 exchanges, all carrying vector entries. -/
def mig15Src : SqliteState :=
  { exchanges := migIds.map migRow
    vec_exchanges := migIds.map (fun i => ⟨i, [1]⟩)
    tool_calls := [] }

/-- Embedded store for the migration-count witness: three exchanges, of
which m2 has no vector entry. -/
def migCountSrc : SqliteState :=
  { exchanges := [{ baseRow with id := "m1", timestamp := "2025-01-02" },
                  { baseRow with id := "m2", timestamp := "2025-01-01" },
                  { baseRow with id := "m3", timestamp := "2025-01-03" }]
    vec_exchanges := [⟨"m1", [1]⟩, ⟨"m3", [3]⟩]
    tool_calls := [⟨"tc1", "m1", "Read", none, none, false, "2025-01-02T00:00:01Z"⟩] }

/-! Lemmas about the generic list operations of the model. -/

theorem insertSorted_perm (le : α → α → Bool) (x : α) (l : List α) :
    List.Perm (insertSorted le x l) (x :: l) := by
  induction l with
  | nil => simp [insertSorted]
  | cons y ys ih =>
      by_cases h : le x y = true
      · simp [insertSorted, h]
      · simp only [insertSorted, h, if_false]
        exact ((ih.cons y).trans (List.Perm.swap x y ys))

theorem orderBy_perm (le : α → α → Bool) (l : List α) : List.Perm (orderBy le l) l := by
  induction l with
  | nil => simp [orderBy]
  | cons x xs ih =>
      exact (insertSorted_perm le x (orderBy le xs)).trans (ih.cons x)

theorem mem_orderBy {le : α → α → Bool} {l : List α} {a : α} :
    a ∈ orderBy le l ↔ a ∈ l :=
  (orderBy_perm le l).mem_iff

theorem upsertBy_nil (key : α → String) (x : α) : upsertBy key x [] = [x] := rfl

theorem upsertBy_cons_ne {key : α → String} {x r : α} (rs : List α)
    (h : key r ≠ key x) : upsertBy key x (r :: rs) = r :: upsertBy key x rs := by
  unfold upsertBy
  rw [List.any_cons, decide_eq_false h, Bool.false_or]
  by_cases hany : (rs.any fun r' => key r' = key x) = true
  · rw [if_pos hany, if_pos hany, List.map_cons, if_neg h]
  · rw [if_neg hany, if_neg hany]
    rfl

theorem map_replaceKey_of_notin {key : α → String} {x : α} {rs : List α}
    (h : ∀ r ∈ rs, key r ≠ key x) :
    rs.map (fun r => if key r = key x then x else r) = rs := by
  induction rs with
  | nil => rfl
  | cons r rs ih =>
      simp only [List.map_cons, if_neg (h r (by simp))]
      rw [ih (fun r' hr' => h r' (by simp [hr']))]

theorem upsertBy_cons_eq_of_fresh_tail {key : α → String} {x r : α} {rs : List α}
    (h : key r = key x) (hrs : ∀ r' ∈ rs, key r' ≠ key x) :
    upsertBy key x (r :: rs) = x :: rs := by
  unfold upsertBy
  rw [List.any_cons, decide_eq_true h, Bool.true_or, if_pos rfl,
    List.map_cons, if_pos h, map_replaceKey_of_notin hrs]

theorem upsertBy_of_fresh {key : α → String} {x : α} {t : List α}
    (h : ∀ r ∈ t, key r ≠ key x) : upsertBy key x t = t ++ [x] := by
  induction t with
  | nil => rfl
  | cons r rs ih =>
      rw [upsertBy_cons_ne rs (h r (by simp)), ih (fun r' hr' => h r' (by simp [hr']))]
      rfl

theorem filter_key_upsertBy {key : α → String} (x : α) {t : List α}
    (h : (t.map key).Nodup) :
    (upsertBy key x t).filter (fun r => key r = key x) = [x] := by
  induction t with
  | nil => simp [upsertBy_nil]
  | cons r rs ih =>
      simp only [List.map_cons, List.nodup_cons] at h
      by_cases hk : key r = key x
      · have hrs : ∀ r' ∈ rs, key r' ≠ key x := by
          intro r' hr' he
          exact h.1 (hk ▸ he ▸ List.mem_map.mpr ⟨r', hr', rfl⟩)
        rw [upsertBy_cons_eq_of_fresh_tail hk hrs, List.filter_cons,
          if_pos (by simp), List.filter_eq_nil_iff.mpr (by
            intro r' hr'
            simpa using hrs r' hr')]
      · rw [upsertBy_cons_ne rs hk, List.filter_cons, if_neg (by simpa using hk)]
        exact ih h.2

theorem mem_upsertBy_self {key : α → String} (x : α) (t : List α) :
    x ∈ upsertBy key x t := by
  induction t with
  | nil => simp [upsertBy_nil]
  | cons r rs ih =>
      by_cases hk : key r = key x
      · unfold upsertBy
        rw [List.any_cons, decide_eq_true hk, Bool.true_or, if_pos rfl,
          List.map_cons, if_pos hk]
        simp
      · rw [upsertBy_cons_ne rs hk]
        exact List.mem_cons_of_mem r ih

theorem mem_upsertBy_of_key_ne {key : α → String} {x y : α} {t : List α}
    (h : key y ≠ key x) : y ∈ upsertBy key x t ↔ y ∈ t := by
  induction t with
  | nil =>
      simp only [upsertBy_nil, List.mem_singleton, List.not_mem_nil, iff_false]
      intro he
      exact h (he ▸ rfl)
  | cons r rs ih =>
      by_cases hk : key r = key x
      · unfold upsertBy
        rw [List.any_cons, decide_eq_true hk, Bool.true_or, if_pos rfl]
        simp only [List.map_cons, if_pos hk, List.mem_cons]
        constructor
        · rintro (rfl | hy)
          · exact absurd rfl h
          · right
            rcases List.mem_map.mp hy with ⟨r', hr', hre⟩
            by_cases hk' : key r' = key x
            · rw [if_pos hk'] at hre
              exact absurd (hre ▸ rfl) h
            · rw [if_neg hk'] at hre
              exact hre ▸ hr'
        · rintro (rfl | hy)
          · exact absurd hk (by simpa using h)
          · right
            refine List.mem_map.mpr ⟨y, hy, ?_⟩
            rw [if_neg h]
      · rw [upsertBy_cons_ne rs hk]
        simp [ih]

theorem keys_upsertBy_nodup {key : α → String} {x : α} {t : List α}
    (h : (t.map key).Nodup) : ((upsertBy key x t).map key).Nodup := by
  induction t with
  | nil => simp [upsertBy_nil]
  | cons r rs ih =>
      simp only [List.map_cons, List.nodup_cons] at h
      by_cases hk : key r = key x
      · have hrs : ∀ r' ∈ rs, key r' ≠ key x := by
          intro r' hr' he
          exact h.1 (hk ▸ he ▸ List.mem_map.mpr ⟨r', hr', rfl⟩)
        rw [upsertBy_cons_eq_of_fresh_tail hk hrs]
        simp only [List.map_cons, List.nodup_cons]
        refine ⟨fun hx => ?_, h.2⟩
        rcases List.mem_map.mp hx with ⟨r', hr', hre⟩
        exact hrs r' hr' hre
      · rw [upsertBy_cons_ne rs hk]
        simp only [List.map_cons, List.nodup_cons]
        refine ⟨fun hx => ?_, ih h.2⟩
        rcases List.mem_map.mp hx with ⟨r', hr', hre⟩
        have hr'x : key r' ≠ key x := fun he => hk (hre ▸ he)
        have hr'mem : r' ∈ rs := (mem_upsertBy_of_key_ne hr'x).mp hr'
        exact h.1 (hre ▸ List.mem_map.mpr ⟨r', hr'mem, rfl⟩)

theorem charListLe_refl (l : List Char) : charListLe l l = true := by
  induction l with
  | nil => rfl
  | cons c cs ih => simp [charListLe, ih]

theorem tsLe_refl (a : String) : tsLe a a = true := charListLe_refl a.data

theorem chunksFuel_join (bs : Nat) : ∀ (fuel : Nat) (l : List α),
    (chunksFuel bs fuel l).flatten = l := by
  intro fuel
  induction fuel with
  | zero =>
      intro l
      cases l with
      | nil => rfl
      | cons x xs => simp [chunksFuel]
  | succ fuel ih =>
      intro l
      cases l with
      | nil => rfl
      | cons x xs =>
          simp only [chunksFuel, List.flatten_cons, ih]
          rw [List.cons_append, List.take_append_drop]

theorem chunks_join (bs : Nat) (l : List α) : (chunks bs l).flatten = l :=
  chunksFuel_join bs l.length l

theorem foldl_chunks (bs : Nat) (f : β → α → β) (init : β) (l : List α) :
    (chunks bs l).foldl (fun acc batch => batch.foldl f acc) init = l.foldl f init := by
  conv_rhs => rw [← chunks_join bs l]
  rw [List.foldl_flatten]

/-! Lemmas about the PostgreSQL transaction statements. -/

theorem foldl_toolCallStmts_exchanges (tcs : List ToolCall) (s : PgState) :
    ((tcs.map (fun tc => PgStmt.upsertToolCall (toolCallRowOf tc))).foldl
      applyPgStmt s).exchanges = s.exchanges := by
  induction tcs generalizing s with
  | nil => rfl
  | cons tc rest ih => simpa [applyPgStmt] using ih _

theorem pgInsertExchangeOk_exchanges (now : Int) (e : ConversationExchange)
    (emb : List ℤ) (s : PgState) :
    (pgInsertExchangeOk now e emb s).exchanges =
      upsertBy (fun r => r.id) (pgExchangeRowOf now e emb) s.exchanges := by
  unfold pgInsertExchangeOk pgInsertStmts
  rw [List.foldl_cons, foldl_toolCallStmts_exchanges]
  rfl

theorem foldl_toolCallStmts_tool_calls (tcs : List ToolCall) (s : PgState) :
    ((tcs.map (fun tc => PgStmt.upsertToolCall (toolCallRowOf tc))).foldl
      applyPgStmt s).tool_calls =
      tcs.foldl (fun t tc => upsertBy (fun r => r.id) (toolCallRowOf tc) t) s.tool_calls := by
  induction tcs generalizing s with
  | nil => rfl
  | cons tc rest ih => simpa [applyPgStmt] using ih _

theorem pgInsertExchangeOk_tool_calls (now : Int) (e : ConversationExchange)
    (emb : List ℤ) (s : PgState) :
    (pgInsertExchangeOk now e emb s).tool_calls =
      e.toolCalls.foldl (fun t tc => upsertBy (fun r => r.id) (toolCallRowOf tc) t)
        s.tool_calls := by
  unfold pgInsertExchangeOk pgInsertStmts
  rw [List.foldl_cons, foldl_toolCallStmts_tool_calls]
  rfl

theorem runStmtsFrom_none_iff (fails : Nat → Bool) : ∀ (stmts : List PgStmt)
    (i : Nat) (s : PgState),
    runStmtsFrom fails i stmts s = none ↔ ∃ j < stmts.length, fails (i + j) = true := by
  intro stmts
  induction stmts with
  | nil => simp [runStmtsFrom]
  | cons st rest ih =>
      intro i s
      constructor
      · intro h
        by_cases hf : fails i = true
        · exact ⟨0, by simp, by simpa using hf⟩
        · have h' : runStmtsFrom fails (i + 1) rest (applyPgStmt s st) = none := by
            simpa [runStmtsFrom, hf] using h
          rcases (ih (i + 1) (applyPgStmt s st)).mp h' with ⟨j, hj, hfj⟩
          refine ⟨j + 1, by simpa using Nat.succ_lt_succ hj, ?_⟩
          rw [show i + (j + 1) = i + 1 + j by omega]
          exact hfj
      · rintro ⟨j, hj, hfj⟩
        cases j with
        | zero => simp [runStmtsFrom, show fails i = true by simpa using hfj]
        | succ j =>
            by_cases hf : fails i = true
            · simp [runStmtsFrom, hf]
            · simp only [runStmtsFrom, hf, if_false]
              refine (ih (i + 1) (applyPgStmt s st)).mpr ⟨j, by simpa using hj, ?_⟩
              rw [show i + 1 + j = i + (j + 1) by omega]
              exact hfj

theorem runStmtsFrom_some (fails : Nat → Bool) : ∀ (stmts : List PgStmt)
    (i : Nat) (s s' : PgState),
    runStmtsFrom fails i stmts s = some s' → s' = stmts.foldl applyPgStmt s := by
  intro stmts
  induction stmts with
  | nil =>
      intro i s s' h
      simpa [runStmtsFrom] using h.symm
  | cons st rest ih =>
      intro i s s' h
      by_cases hf : fails i = true
      · simp [runStmtsFrom, hf] at h
      · simp only [runStmtsFrom, hf, if_false] at h
        exact (List.foldl_cons ..).symm ▸ ih (i + 1) (applyPgStmt s st) s' h

/-! Lemmas about folded tool-call upserts, shared by the reindexing and
upsert-idempotence claims. -/

theorem foldl_upsert_mem_iff_of_key_notin {key : α → String} {t : α} :
    ∀ {rs : List α} {l : List α}, key t ∉ rs.map key →
    (t ∈ rs.foldl (fun acc r => upsertBy key r acc) l ↔ t ∈ l) := by
  intro rs
  induction rs with
  | nil => simp
  | cons r rest ih =>
      intro l hk
      simp only [List.map_cons, List.mem_cons, not_or] at hk
      rw [List.foldl_cons, ih hk.2, mem_upsertBy_of_key_ne hk.1]

theorem foldl_upsert_mem_self {key : α → String} {r : α} :
    ∀ {rs : List α} {l : List α}, (rs.map key).Nodup → r ∈ rs →
    r ∈ rs.foldl (fun acc r' => upsertBy key r' acc) l := by
  intro rs
  induction rs with
  | nil => simp
  | cons r₀ rest ih =>
      intro l hnd hr
      simp only [List.map_cons, List.nodup_cons] at hnd
      rcases List.mem_cons.mp hr with rfl | hr
      · rw [List.foldl_cons]
        exact (foldl_upsert_mem_iff_of_key_notin hnd.1).mpr (mem_upsertBy_self r l)
      · rw [List.foldl_cons]
        exact ih hnd.2 hr

/-! Case-folding congruence of the LIKE / ILIKE substring matching. -/

theorem headMatch_fold_congr {p q : List Char}
    (h : p.map asciiLower = q.map asciiLower) (s : List Char) :
    headMatch likeCharEq p s = headMatch likeCharEq q s := by
  induction p generalizing q s with
  | nil =>
      cases q with
      | nil => rfl
      | cons c cs => simp at h
  | cons a as ih =>
      cases q with
      | nil => simp at h
      | cons b bs =>
          simp only [List.map_cons, List.cons.injEq] at h
          cases s with
          | nil => rfl
          | cons c cs =>
              simp only [headMatch, likeCharEq, h.1, ih h.2]

theorem subMatch_fold_congr {p q : List Char}
    (h : p.map asciiLower = q.map asciiLower) (s : List Char) :
    subMatch likeCharEq p s = subMatch likeCharEq q s := by
  induction s with
  | nil => simp [subMatch, headMatch_fold_congr h]
  | cons c cs ih => simp [subMatch, headMatch_fold_congr h, ih]

/-! Concrete fixtures used to instantiate the theorems below. -/

/-! Claim theorems. -/

/-- C7: verifyMigration returns true exactly when the embedded store's
exchange row count equals the server backend's totalExchanges count, and
the reported discrepancy is the signed difference embedded minus server. -/
theorem verifyMigration_counts (src : SqliteState) (pg : PgState) :
    ((verifyMigration src pg).1 = true ↔
      sqliteCountExchanges src = pgTotalExchanges pg) ∧
    (verifyMigration src pg).2 =
      (sqliteCountExchanges src : Int) - (pgTotalExchanges pg : Int) :=
  ⟨by simp [verifyMigration], rfl⟩

/-- C2 counterexample: on the embedded backend, deleting exchange e1
removes its exchange row and vector entry but the tool call owned by e1 is
still present in `tool_calls` afterwards — the claimed cascade does not
happen on this backend. -/
theorem deleteExchange_orphan_cex :
    (sqliteDeleteExchange "e1" cascadeSqlite).exchanges.filter
        (fun r => r.id = "e1") = [] ∧
    (sqliteDeleteExchange "e1" cascadeSqlite).vec_exchanges.filter
        (fun v => v.id = "e1") = [] ∧
    (sqliteDeleteExchange "e1" cascadeSqlite).tool_calls.filter
        (fun t => t.exchange_id = "e1") ≠ [] := by
  decide

/-- C2 amended: deleteExchange removes the exchange row on both backends
and the vector entry on the embedded backend; the cascade onto owned tool
calls happens only on the server backend — the embedded backend leaves its
`tool_calls` table untouched, orphaning the deleted exchange's tool
calls. -/
theorem deleteExchange_cascade_amended (id : String) (sp : PgState) (ss : SqliteState) :
    (∀ t ∈ (pgDeleteExchange id sp).tool_calls, t.exchange_id ≠ id) ∧
    (∀ e ∈ (pgDeleteExchange id sp).exchanges, e.id ≠ id) ∧
    (∀ e ∈ (sqliteDeleteExchange id ss).exchanges, e.id ≠ id) ∧
    (∀ v ∈ (sqliteDeleteExchange id ss).vec_exchanges, v.id ≠ id) ∧
    (sqliteDeleteExchange id ss).tool_calls = ss.tool_calls := by
  refine ⟨?_, ?_, ?_, ?_, rfl⟩ <;>
    · intro x hx
      simpa using (List.mem_filter.mp hx).2

/-- Witness for the amended C2 theorem at the concrete cascade fixture. -/
theorem deleteExchange_cascade_amended_witness :
    ((⟨"t2", "e2", "Write", none, none, false, "2025-01-01T12:00:02Z"⟩ : ToolCallRow)
        ∈ (pgDeleteExchange "e1" cascadePg).tool_calls ∧
      (⟨"t2", "e2", "Write", none, none, false, "2025-01-01T12:00:02Z"⟩ : ToolCallRow).exchange_id ≠ "e1") ∧
    (({ baseRow with id := "e2", embedding := some [2] })
        ∈ (pgDeleteExchange "e1" cascadePg).exchanges ∧
      ({ baseRow with id := "e2", embedding := some [2] } : ExchangeRow).id ≠ "e1") ∧
    (({ baseRow with id := "e2" }) ∈ (sqliteDeleteExchange "e1" cascadeSqlite).exchanges ∧
      ({ baseRow with id := "e2" } : ExchangeRow).id ≠ "e1") ∧
    ((⟨"e2", [2]⟩ : VecRow) ∈ (sqliteDeleteExchange "e1" cascadeSqlite).vec_exchanges ∧
      (⟨"e2", [2]⟩ : VecRow).id ≠ "e1") ∧
    (sqliteDeleteExchange "e1" cascadeSqlite).tool_calls = cascadeSqlite.tool_calls :=
  ⟨⟨by decide, (deleteExchange_cascade_amended "e1" cascadePg cascadeSqlite).1 _ (by decide)⟩,
   ⟨by decide, (deleteExchange_cascade_amended "e1" cascadePg cascadeSqlite).2.1 _ (by decide)⟩,
   ⟨by decide, (deleteExchange_cascade_amended "e1" cascadePg cascadeSqlite).2.2.1 _ (by decide)⟩,
   ⟨by decide, (deleteExchange_cascade_amended "e1" cascadePg cascadeSqlite).2.2.2.1 _ (by decide)⟩,
   (deleteExchange_cascade_amended "e1" cascadePg cascadeSqlite).2.2.2.2⟩

/-- C10: on the embedded backend the time window is applied after the
k-nearest selection. With limit 1, two of the three stored exchanges lie in
the window, yet the embedded search returns no rows, because the single
nearest vector belongs to the out-of-window exchange C and is filtered
away; the server backend filters first and returns the full limit (row A,
the nearest in-window exchange). -/
theorem sqliteVector_knn_before_window :
    1 ≤ (knnSqlite.exchanges.filter
      (fun e => timeOk (some "2025-01-01") (some "2025-12-31") e.timestamp)).length ∧
    (sqliteSearchByVector [0] ⟨1, some "2025-01-01", some "2025-12-31"⟩ knnSqlite).length < 1 ∧
    (pgSearchByVector [0] ⟨1, some "2025-01-01", some "2025-12-31"⟩ knnPg).map
      (fun r => r.row.id) = ["A"] := by
  decide

/-- C5: the server backend's insertExchange is atomic. Whatever statements
of the transaction fail, the observable state afterwards is either exactly
the pre-call state (with the error propagated) or exactly the state with
the full write applied — never a mixture; and an error is raised precisely
when some statement of the transaction fails. -/
theorem pgInsertExchange_atomic (fails : Nat → Bool) (now : Int)
    (e : ConversationExchange) (emb : List ℤ) (s : PgState) :
    (pgInsertExchange fails now e emb s).state =
      (if (pgInsertExchange fails now e emb s).errored then s
       else pgInsertExchangeOk now e emb s) ∧
    (pgInsertExchange fails now e emb s).errored =
      (List.range (pgInsertStmts now e emb).length).any fails := by
  unfold pgInsertExchange
  cases hrun : runStmtsFrom fails 0 (pgInsertStmts now e emb) s with
  | some s2 =>
      have hnone : ¬ ∃ j < (pgInsertStmts now e emb).length, fails j = true := by
        intro hex
        have := (runStmtsFrom_none_iff fails (pgInsertStmts now e emb) 0 s).mpr
          (by simpa using hex)
        rw [hrun] at this
        exact Option.some_ne_none s2 this
      constructor
      · simpa using runStmtsFrom_some fails (pgInsertStmts now e emb) 0 s s2 hrun
      · simp only []
        symm
        rw [List.any_eq_false]
        intro j hj
        rw [List.mem_range] at hj
        by_contra hcon
        exact hnone ⟨j, hj, by simpa using hcon⟩
  | none =>
      have hex : ∃ j < (pgInsertStmts now e emb).length, fails j = true := by
        simpa using (runStmtsFrom_none_iff fails (pgInsertStmts now e emb) 0 s).mp hrun
      refine ⟨by simp, ?_⟩
      symm
      rcases hex with ⟨j, hj, hfj⟩
      exact List.any_eq_true.mpr ⟨j, List.mem_range.mpr hj, hfj⟩

/-- C8: upserting the same exchange identifier twice (with different field
values, embeddings and timestamps) leaves exactly one row under that
identifier, carrying the values and embedding of the second insert — on the
embedded backend (one exchange row, one vector entry) and on the server
backend (one exchange row with the second embedding in its vector
column). -/
theorem insertExchange_upsert_latest (now₁ now₂ : Int)
    (e₁ e₂ : ConversationExchange) (emb₁ emb₂ : List ℤ)
    (ss : SqliteState) (sp : PgState)
    (hid : e₁.id = e₂.id)
    (hs : (ss.exchanges.map (fun r => r.id)).Nodup)
    (hp : (sp.exchanges.map (fun r => r.id)).Nodup) :
    (sqliteInsertExchange now₂ e₂ emb₂ (sqliteInsertExchange now₁ e₁ emb₁ ss)).exchanges.filter
        (fun r => r.id = e₂.id) = [sqliteExchangeRowOf now₂ e₂] ∧
    (sqliteInsertExchange now₂ e₂ emb₂ (sqliteInsertExchange now₁ e₁ emb₁ ss)).vec_exchanges.filter
        (fun v => v.id = e₂.id) = [⟨e₂.id, emb₂⟩] ∧
    (pgInsertExchangeOk now₂ e₂ emb₂ (pgInsertExchangeOk now₁ e₁ emb₁ sp)).exchanges.filter
        (fun r => r.id = e₂.id) = [pgExchangeRowOf now₂ e₂ emb₂] := by
  refine ⟨?_, ?_, ?_⟩
  · have hnd₁ : (((sqliteInsertExchange now₁ e₁ emb₁ ss).exchanges).map
        (fun r => r.id)).Nodup := keys_upsertBy_nodup hs
    exact @filter_key_upsertBy _ (fun r => r.id)
      (sqliteExchangeRowOf now₂ e₂) _ hnd₁
  · show ((sqliteInsertExchange now₁ e₁ emb₁ ss).vec_exchanges.filter
        (fun v => v.id ≠ e₂.id) ++ [(⟨e₂.id, emb₂⟩ : VecRow)]).filter
          (fun v => v.id = e₂.id) = [(⟨e₂.id, emb₂⟩ : VecRow)]
    rw [List.filter_append]
    rw [List.filter_eq_nil_iff.mpr (by
      intro v hv
      have := (List.mem_filter.mp hv).2
      simpa using this)]
    simp
  · rw [pgInsertExchangeOk_exchanges]
    have hnd₁ : (((pgInsertExchangeOk now₁ e₁ emb₁ sp).exchanges).map
        (fun r => r.id)).Nodup := by
      rw [pgInsertExchangeOk_exchanges]
      exact keys_upsertBy_nodup hp
    exact @filter_key_upsertBy _ (fun r => r.id)
      (pgExchangeRowOf now₂ e₂ emb₂) _ hnd₁

/-- Witness for the upsert-idempotence theorem: two inserts of identifier
e1 with different projects, messages and embeddings, starting from empty
stores. -/
theorem insertExchange_upsert_latest_witness :
    ({ baseExchange with project := "p1" } : ConversationExchange).id =
      ({ baseExchange with project := "p2", userMessage := "second" } : ConversationExchange).id ∧
    (((⟨[], [], []⟩ : SqliteState).exchanges.map (fun r => r.id)).Nodup ∧
      ((⟨[], []⟩ : PgState).exchanges.map (fun r => r.id)).Nodup) ∧
    ((sqliteInsertExchange 2 { baseExchange with project := "p2", userMessage := "second" } [9]
        (sqliteInsertExchange 1 { baseExchange with project := "p1" } [7]
          (⟨[], [], []⟩ : SqliteState))).exchanges.filter
        (fun r => r.id = ({ baseExchange with project := "p2", userMessage := "second" } : ConversationExchange).id)
      = [sqliteExchangeRowOf 2 { baseExchange with project := "p2", userMessage := "second" }] ∧
     (sqliteInsertExchange 2 { baseExchange with project := "p2", userMessage := "second" } [9]
        (sqliteInsertExchange 1 { baseExchange with project := "p1" } [7]
          (⟨[], [], []⟩ : SqliteState))).vec_exchanges.filter
        (fun v => v.id = ({ baseExchange with project := "p2", userMessage := "second" } : ConversationExchange).id)
      = [⟨({ baseExchange with project := "p2", userMessage := "second" } : ConversationExchange).id, [9]⟩] ∧
     (pgInsertExchangeOk 2 { baseExchange with project := "p2", userMessage := "second" } [9]
        (pgInsertExchangeOk 1 { baseExchange with project := "p1" } [7]
          (⟨[], []⟩ : PgState))).exchanges.filter
        (fun r => r.id = ({ baseExchange with project := "p2", userMessage := "second" } : ConversationExchange).id)
      = [pgExchangeRowOf 2 { baseExchange with project := "p2", userMessage := "second" } [9]]) :=
  ⟨rfl, ⟨by decide, by decide⟩,
    insertExchange_upsert_latest 1 2 { baseExchange with project := "p1" }
      { baseExchange with project := "p2", userMessage := "second" } [7] [9]
      ⟨[], [], []⟩ ⟨[], []⟩ rfl (by decide) (by decide)⟩

/-- C3 counterexample: indexing exchange e1 with tool call t1 and then
reindexing it with tool call t2 leaves both t1 and t2 owned by e1 — on
both backends the set of tool calls owned by the reindexed exchange is not
the set carried by the new DTO; the first write's tool call survives. -/
theorem insertExchange_stale_toolCalls_cex :
    toolCallRowOf reindexTool1 ∈
      (sqliteInsertExchange 1 reindexE2 [1]
        (sqliteInsertExchange 0 reindexE1 [1] ⟨[], [], []⟩)).tool_calls ∧
    ¬ ((sqliteInsertExchange 1 reindexE2 [1]
        (sqliteInsertExchange 0 reindexE1 [1] ⟨[], [], []⟩)).tool_calls.filter
          (fun t => t.exchange_id = reindexE2.id) = reindexE2.toolCalls.map toolCallRowOf) ∧
    toolCallRowOf reindexTool1 ∈
      (pgInsertExchangeOk 1 reindexE2 [1]
        (pgInsertExchangeOk 0 reindexE1 [1] ⟨[], []⟩)).tool_calls ∧
    ¬ ((pgInsertExchangeOk 1 reindexE2 [1]
        (pgInsertExchangeOk 0 reindexE1 [1] ⟨[], []⟩)).tool_calls.filter
          (fun t => t.exchange_id = reindexE2.id) = reindexE2.toolCalls.map toolCallRowOf) := by
  decide

/-- C3 amended: reindexing an exchange upserts its tool calls by
identifier rather than replacing them wholesale, on both backends: every
tool call carried by the new DTO is stored, and tool-call rows already in
the table whose identifiers are not among the new DTO's tool-call
identifiers are retained unchanged (stale tool calls from an earlier write
survive). -/
theorem insertExchange_toolCalls_upsert (now : Int) (e : ConversationExchange)
    (emb : List ℤ) (ss : SqliteState) (sp : PgState)
    (hnd : (e.toolCalls.map (fun tc => tc.id)).Nodup) :
    (∀ t ∈ ss.tool_calls, t.id ∉ e.toolCalls.map (fun tc => tc.id) →
      t ∈ (sqliteInsertExchange now e emb ss).tool_calls) ∧
    (∀ tc ∈ e.toolCalls, toolCallRowOf tc ∈ (sqliteInsertExchange now e emb ss).tool_calls) ∧
    (∀ t ∈ sp.tool_calls, t.id ∉ e.toolCalls.map (fun tc => tc.id) →
      t ∈ (pgInsertExchangeOk now e emb sp).tool_calls) ∧
    (∀ tc ∈ e.toolCalls, toolCallRowOf tc ∈ (pgInsertExchangeOk now e emb sp).tool_calls) := by
  have hmapkeys : (e.toolCalls.map toolCallRowOf).map (fun r => r.id)
      = e.toolCalls.map (fun tc => tc.id) := by
    rw [List.map_map]
    rfl
  have hfold : ∀ (init : List ToolCallRow),
      e.toolCalls.foldl (fun t tc => upsertBy (fun r => r.id) (toolCallRowOf tc) t) init
        = (e.toolCalls.map toolCallRowOf).foldl
            (fun acc r => upsertBy (fun x => x.id) r acc) init := by
    intro init
    rw [List.foldl_map]
  refine ⟨?_, ?_, ?_, ?_⟩
  · intro t ht hnotin
    show t ∈ e.toolCalls.foldl (fun t tc => upsertBy (fun r => r.id) (toolCallRowOf tc) t)
      ss.tool_calls
    rw [hfold]
    exact (foldl_upsert_mem_iff_of_key_notin (by rw [hmapkeys]; exact hnotin)).mpr ht
  · intro tc htc
    show toolCallRowOf tc ∈
      e.toolCalls.foldl (fun t tc => upsertBy (fun r => r.id) (toolCallRowOf tc) t)
        ss.tool_calls
    rw [hfold]
    exact foldl_upsert_mem_self (by rw [hmapkeys]; exact hnd)
      (List.mem_map.mpr ⟨tc, htc, rfl⟩)
  · intro t ht hnotin
    rw [pgInsertExchangeOk_tool_calls, hfold]
    exact (foldl_upsert_mem_iff_of_key_notin (by rw [hmapkeys]; exact hnotin)).mpr ht
  · intro tc htc
    rw [pgInsertExchangeOk_tool_calls, hfold]
    exact foldl_upsert_mem_self (by rw [hmapkeys]; exact hnd)
      (List.mem_map.mpr ⟨tc, htc, rfl⟩)

/-- Witness for the amended C3 theorem: a stale tool-call row t1 (absent
from the reindexed DTO) survives the reinsert, and the DTO's tool call t2
is stored, on both backends. -/
theorem insertExchange_toolCalls_upsert_witness :
    ((reindexE2.toolCalls.map (fun tc => tc.id)).Nodup) ∧
    toolCallRowOf reindexTool1 ∈
      (sqliteInsertExchange 1 reindexE2 [1]
        ⟨[], [], [toolCallRowOf reindexTool1]⟩).tool_calls ∧
    toolCallRowOf reindexTool2 ∈
      (sqliteInsertExchange 1 reindexE2 [1]
        ⟨[], [], [toolCallRowOf reindexTool1]⟩).tool_calls ∧
    toolCallRowOf reindexTool1 ∈
      (pgInsertExchangeOk 1 reindexE2 [1] ⟨[], [toolCallRowOf reindexTool1]⟩).tool_calls ∧
    toolCallRowOf reindexTool2 ∈
      (pgInsertExchangeOk 1 reindexE2 [1] ⟨[], [toolCallRowOf reindexTool1]⟩).tool_calls :=
  ⟨by decide,
   (insertExchange_toolCalls_upsert 1 reindexE2 [1]
      ⟨[], [], [toolCallRowOf reindexTool1]⟩ ⟨[], [toolCallRowOf reindexTool1]⟩
      (by decide)).1 _ (by decide) (by decide),
   (insertExchange_toolCalls_upsert 1 reindexE2 [1]
      ⟨[], [], [toolCallRowOf reindexTool1]⟩ ⟨[], [toolCallRowOf reindexTool1]⟩
      (by decide)).2.1 _ (by decide),
   (insertExchange_toolCalls_upsert 1 reindexE2 [1]
      ⟨[], [], [toolCallRowOf reindexTool1]⟩ ⟨[], [toolCallRowOf reindexTool1]⟩
      (by decide)).2.2.1 _ (by decide) (by decide),
   (insertExchange_toolCalls_upsert 1 reindexE2 [1]
      ⟨[], [], [toolCallRowOf reindexTool1]⟩ ⟨[], [toolCallRowOf reindexTool1]⟩
      (by decide)).2.2.2 _ (by decide)⟩

/-- C4 counterexample: the embedded backend's searchByText is not
case-sensitive. The query Docker is not a case-sensitive substring of
either stored message column, yet the embedded search returns the row —
SQLite's default LIKE compares ASCII letters case-insensitively. -/
theorem sqliteTextSearch_case_cex :
    (sqliteSearchByText "Docker" ⟨10, none, none⟩ caseSqlite).map (fun r => r.row.id)
      = ["e1"] ∧
    subMatch (fun a b => a = b) "Docker".data "use docker now".data = false ∧
    subMatch (fun a b => a = b) "Docker".data "resp".data = false := by
  decide

/-- C4 amended: searchByText is case-insensitive for ASCII letters on BOTH
backends — on the server through ILIKE, and on the embedded backend because
SQLite's default LIKE folds ASCII letters. Queries differing only in ASCII
letter case return identical result sets on either backend. -/
theorem searchByText_ascii_case_insensitive (q₁ q₂ : String)
    (h : q₁.data.map asciiLower = q₂.data.map asciiLower)
    (opts : SearchOptions) (ss : SqliteState) (sp : PgState) :
    sqliteSearchByText q₁ opts ss = sqliteSearchByText q₂ opts ss ∧
    pgSearchByText q₁ opts sp = pgSearchByText q₂ opts sp := by
  have hs : ∀ msg : String,
      subMatch likeCharEq q₁.data msg.data = subMatch likeCharEq q₂.data msg.data :=
    fun msg => subMatch_fold_congr h msg.data
  have hs' : ∀ msg : String,
      subMatch ilikeCharEq q₁.data msg.data = subMatch ilikeCharEq q₂.data msg.data :=
    fun msg => subMatch_fold_congr h msg.data
  constructor
  · have hfilter : ss.exchanges.filter (sqliteTextPred q₁ opts.after opts.before)
        = ss.exchanges.filter (sqliteTextPred q₂ opts.after opts.before) :=
      List.filter_congr (fun e _ => by
        unfold sqliteTextPred
        rw [hs e.user_message, hs e.assistant_message])
    unfold sqliteSearchByText
    rw [hfilter]
  · have hfilter : sp.exchanges.filter (pgTextPred q₁ opts.after opts.before)
        = sp.exchanges.filter (pgTextPred q₂ opts.after opts.before) :=
      List.filter_congr (fun e _ => by
        unfold pgTextPred
        rw [hs' e.user_message, hs' e.assistant_message])
    unfold pgSearchByText
    rw [hfilter]

/-- Witness for the amended C4 theorem at the queries Docker and docker on
the concrete fixtures. -/
theorem searchByText_ascii_case_insensitive_witness :
    ("Docker".data.map asciiLower = "docker".data.map asciiLower) ∧
    (sqliteSearchByText "Docker" ⟨10, none, none⟩ caseSqlite
        = sqliteSearchByText "docker" ⟨10, none, none⟩ caseSqlite ∧
      pgSearchByText "Docker" ⟨10, none, none⟩ casePg
        = pgSearchByText "docker" ⟨10, none, none⟩ casePg) :=
  ⟨by decide,
   searchByText_ascii_case_insensitive "Docker" "docker" (by decide)
     ⟨10, none, none⟩ caseSqlite casePg⟩

/-- C6: the after/before filters of every search path on both backends are
inclusive at both boundaries. The filter predicate accepts a timestamp
equal to `after` or to `before` and accepts exactly the timestamps in
[after, before]; every row any of the four searches returns has its
timestamp inside the window. -/
theorem searchWindow_inclusive (a b : String) (k : Nat) (emb : List ℤ) (q : String)
    (ss : SqliteState) (sp : PgState) :
    (tsLe a b = true →
      timeOk (some a) (some b) a = true ∧ timeOk (some a) (some b) b = true) ∧
    (∀ ts, timeOk (some a) (some b) ts = true ↔ (tsLe a ts = true ∧ tsLe ts b = true)) ∧
    (∀ r ∈ sqliteSearchByVector emb ⟨k, some a, some b⟩ ss,
      tsLe a r.row.timestamp = true ∧ tsLe r.row.timestamp b = true) ∧
    (∀ r ∈ sqliteSearchByText q ⟨k, some a, some b⟩ ss,
      tsLe a r.row.timestamp = true ∧ tsLe r.row.timestamp b = true) ∧
    (∀ r ∈ pgSearchByVector emb ⟨k, some a, some b⟩ sp,
      tsLe a r.row.timestamp = true ∧ tsLe r.row.timestamp b = true) ∧
    (∀ r ∈ pgSearchByText q ⟨k, some a, some b⟩ sp,
      tsLe a r.row.timestamp = true ∧ tsLe r.row.timestamp b = true) := by
  have htime : ∀ ts, timeOk (some a) (some b) ts = (tsLe a ts && tsLe ts b) :=
    fun ts => rfl
  have hiff : ∀ ts, timeOk (some a) (some b) ts = true ↔
      (tsLe a ts = true ∧ tsLe ts b = true) := by
    intro ts
    rw [htime, Bool.and_eq_true]
  refine ⟨?_, hiff, ?_, ?_, ?_, ?_⟩
  · intro hab
    constructor
    · rw [htime, tsLe_refl, hab]
      rfl
    · rw [htime, tsLe_refl, hab]
      rfl
  · intro r hr
    rcases List.mem_filterMap.mp (mem_orderBy.mp hr) with ⟨v, hv, hfv⟩
    cases hfind : ss.exchanges.find? (fun e => e.id = v.id) with
    | none => rw [hfind] at hfv; exact absurd hfv (by simp)
    | some e =>
        rw [hfind] at hfv
        dsimp only at hfv
        by_cases ht : timeOk (some a) (some b) e.timestamp = true
        · rw [if_pos ht] at hfv
          cases Option.some.inj hfv
          exact (hiff e.timestamp).mp ht
        · rw [if_neg ht] at hfv
          exact absurd hfv (by simp)
  · intro r hr
    rcases List.mem_map.mp hr with ⟨e, he, rfl⟩
    have he' : e ∈ ss.exchanges.filter (sqliteTextPred q (some a) (some b)) :=
      mem_orderBy.mp (List.take_subset _ _ he)
    have hp := (List.mem_filter.mp he').2
    exact (hiff e.timestamp).mp (Bool.and_eq_true .. ▸ hp).2
  · intro r hr
    rcases List.mem_map.mp hr with ⟨e, he, rfl⟩
    have he' : e ∈ sp.exchanges.filter
        (fun e => e.embedding.isSome && timeOk (some a) (some b) e.timestamp) :=
      mem_orderBy.mp (List.take_subset _ _ he)
    have hp := (List.mem_filter.mp he').2
    exact (hiff e.timestamp).mp ((Bool.and_eq_true _ _).mp hp).2
  · intro r hr
    rcases List.mem_map.mp hr with ⟨e, he, rfl⟩
    have he' : e ∈ sp.exchanges.filter (pgTextPred q (some a) (some b)) :=
      mem_orderBy.mp (List.take_subset _ _ he)
    have hp := (List.mem_filter.mp he').2
    exact (hiff e.timestamp).mp (Bool.and_eq_true .. ▸ hp).2

/-- Witness for the window-inclusivity theorem: the boundary facts at the
window 2025-01-01 .. 2025-12-31 and a concrete returned row of each of the
four search paths. -/
theorem searchWindow_inclusive_witness :
    (tsLe "2025-01-01" "2025-12-31" = true) ∧
    (timeOk (some "2025-01-01") (some "2025-12-31") "2025-01-01" = true ∧
      timeOk (some "2025-01-01") (some "2025-12-31") "2025-12-31" = true) ∧
    ((⟨windowRow, 0⟩ : RawSearchResult) ∈
        sqliteSearchByVector [1] ⟨10, some "2025-01-01", some "2025-12-31"⟩ windowSqlite ∧
      tsLe "2025-01-01" windowRow.timestamp = true ∧
      tsLe windowRow.timestamp "2025-12-31" = true) ∧
    ((⟨windowRow, 0⟩ : RawSearchResult) ∈
        sqliteSearchByText "hello" ⟨10, some "2025-01-01", some "2025-12-31"⟩ windowSqlite) ∧
    ((⟨{ windowRow with embedding := some [1] }, 0⟩ : RawSearchResult) ∈
        pgSearchByVector [1] ⟨10, some "2025-01-01", some "2025-12-31"⟩ windowPg ∧
      tsLe "2025-01-01" ({ windowRow with embedding := some [1] } : ExchangeRow).timestamp = true) ∧
    ((⟨{ windowRow with embedding := some [1] }, 0⟩ : RawSearchResult) ∈
        pgSearchByText "hello" ⟨10, some "2025-01-01", some "2025-12-31"⟩ windowPg ∧
      tsLe ({ windowRow with embedding := some [1] } : ExchangeRow).timestamp "2025-12-31" = true) :=
  ⟨by decide,
   (searchWindow_inclusive "2025-01-01" "2025-12-31" 10 [1] "hello"
      windowSqlite windowPg).1 (by decide),
   ⟨by decide,
    (searchWindow_inclusive "2025-01-01" "2025-12-31" 10 [1] "hello"
      windowSqlite windowPg).2.2.1 (⟨windowRow, 0⟩ : RawSearchResult) (by decide)⟩,
   by decide,
   ⟨by decide,
    ((searchWindow_inclusive "2025-01-01" "2025-12-31" 10 [1] "hello"
      windowSqlite windowPg).2.2.2.2.1
        (⟨{ windowRow with embedding := some [1] }, 0⟩ : RawSearchResult) (by decide)).1⟩,
   ⟨by decide,
    ((searchWindow_inclusive "2025-01-01" "2025-12-31" 10 [1] "hello"
      windowSqlite windowPg).2.2.2.2.2
        (⟨{ windowRow with embedding := some [1] }, 0⟩ : RawSearchResult) (by decide)).2⟩⟩

/-- C9: the batch size changes nothing but the progress printing: two
migration runs over the same embedded store with different batch sizes (at
least 1 each; the JavaScript loop does not terminate for 0) produce equal
tallies and equal final server states. -/
theorem migrate_batchSize_invariant (src : SqliteState) (pg0 : PgState)
    (dryRun : Bool) (now : Int) (bs₁ bs₂ : Nat) (h₁ : 1 ≤ bs₁) (h₂ : 1 ≤ bs₂) :
    migrateToPostgres src pg0 bs₁ dryRun now = migrateToPostgres src pg0 bs₂ dryRun now := by
  unfold migrateToPostgres
  rw [foldl_chunks, foldl_chunks]

/-- Witness for the batch-size theorem: migrating the fixed 15-row store
with batch size 5 and with batch size 100 yields equal outcomes. -/
theorem migrate_batchSize_invariant_witness :
    1 ≤ 5 ∧ 1 ≤ 100 ∧ mig15Src.exchanges.length = 15 ∧
    migrateToPostgres mig15Src ⟨[], []⟩ 5 false 0
      = migrateToPostgres mig15Src ⟨[], []⟩ 100 false 0 :=
  ⟨by decide, by decide, by decide,
   migrate_batchSize_invariant mig15Src ⟨[], []⟩ false 0 5 100 (by decide) (by decide)⟩

theorem length_filter_split (p : α → Bool) (l : List α) :
    (l.filter p).length + (l.filter (fun a => ! p a)).length = l.length := by
  induction l with
  | nil => rfl
  | cons a l ih =>
      by_cases h : p a = true
      · rw [List.filter_cons_of_pos h, List.filter_cons_of_neg (by simp [h])]
        simpa using by omega
      · rw [List.filter_cons_of_neg h,
          List.filter_cons_of_pos (by simp [eq_false_of_ne_true h])]
        simpa using by omega

set_option maxHeartbeats 1600000 in
/-- Invariant of the migration loop over any suffix of the row list: with
pairwise-distinct row identifiers none of which is already present in the
target, each row with a vector entry adds exactly one exchange to the
target and bumps `processed`, each row without one bumps `skipped`, and
`errors` never moves. -/
theorem migrate_fold_spec (src : SqliteState) (now : Int) :
    ∀ (rows : List ExchangeRow) (c : MigrateCounts) (pg : PgState),
    (rows.map (fun r => r.id)).Nodup →
    (∀ r ∈ rows, ∀ p ∈ pg.exchanges, p.id ≠ r.id) →
    ((rows.foldl (migrateRow false now src) (c, pg)).1.processed
        = c.processed + (rows.filter (hasVec src)).length ∧
     (rows.foldl (migrateRow false now src) (c, pg)).1.skipped
        = c.skipped + (rows.filter (fun r => ! hasVec src r)).length ∧
     (rows.foldl (migrateRow false now src) (c, pg)).1.errors = c.errors ∧
     (rows.foldl (migrateRow false now src) (c, pg)).2.exchanges.length
        = pg.exchanges.length + (rows.filter (hasVec src)).length ∧
     (∀ p ∈ (rows.foldl (migrateRow false now src) (c, pg)).2.exchanges,
        p.id ∈ pg.exchanges.map (fun x => x.id) ∨ p.id ∈ rows.map (fun r => r.id))) := by
  intro rows
  induction rows with
  | nil =>
      intro c pg _ _
      refine ⟨by simp, by simp, rfl, by simp, ?_⟩
      intro p hp
      exact Or.inl (List.mem_map.mpr ⟨p, hp, rfl⟩)
  | cons r rest ih =>
      intro c pg hnd hfresh
      have hnd' : (rest.map (fun x => x.id)).Nodup :=
        (List.nodup_cons.mp (by simpa using hnd)).2
      have hndhead : r.id ∉ rest.map (fun x => x.id) :=
        (List.nodup_cons.mp (by simpa using hnd)).1
      rw [List.foldl_cons]
      cases hv : src.vec_exchanges.find? (fun v => v.id = r.id) with
      | none =>
          have hvr : hasVec src r = false := by simp [hasVec, hv]
          have hstep : migrateRow false now src (c, pg) r
              = ({ c with skipped := c.skipped + 1 }, pg) := by
            simp [migrateRow, hv]
          rw [hstep]
          have hfresh' : ∀ r' ∈ rest, ∀ p ∈ pg.exchanges, p.id ≠ r'.id :=
            fun r' hr' => hfresh r' (List.mem_cons_of_mem r hr')
          rcases ih { c with skipped := c.skipped + 1 } pg hnd' hfresh' with
            ⟨h1, h2, h3, h4, h5⟩
          refine ⟨?_, ?_, ?_, ?_, ?_⟩
          · rw [h1, List.filter_cons_of_neg (by simp [hvr])]
          · rw [h2, List.filter_cons_of_pos (by simp [hvr])]
            simp only [List.length_cons]
            omega
          · rw [h3]
          · rw [h4, List.filter_cons_of_neg (by simp [hvr])]
          · intro p hp
            rcases h5 p hp with h | h
            · exact Or.inl h
            · exact Or.inr (by simp [h])
      | some v =>
          have hvr : hasVec src r = true := by simp [hasVec, hv]
          have hstep : migrateRow false now src (c, pg) r
              = ({ c with processed := c.processed + 1 },
                 pgInsertExchangeOk now
                   (exchangeOfRow r ((src.tool_calls.filter
                     (fun t => t.exchange_id = r.id)).map toolCallOfRow))
                   v.embedding pg) := by
            simp [migrateRow, hv]
          rw [hstep]
          have hfreshr : ∀ p ∈ pg.exchanges, (fun x => x.id) p ≠ (fun x => x.id)
              (pgExchangeRowOf now
                (exchangeOfRow r ((src.tool_calls.filter
                  (fun t => t.exchange_id = r.id)).map toolCallOfRow))
                v.embedding) :=
            fun p hp => hfresh r (by simp) p hp
          generalize hpg2e : pgInsertExchangeOk now
            (exchangeOfRow r ((src.tool_calls.filter
              (fun t => t.exchange_id = r.id)).map toolCallOfRow))
            v.embedding pg = pg2
          have hpg2 : pg2.exchanges = pg.exchanges ++ [pgExchangeRowOf now
              (exchangeOfRow r ((src.tool_calls.filter
                (fun t => t.exchange_id = r.id)).map toolCallOfRow))
              v.embedding] := by
            rw [← hpg2e, pgInsertExchangeOk_exchanges]
            exact upsertBy_of_fresh hfreshr
          have hlen2 : pg2.exchanges.length = pg.exchanges.length + 1 := by
            rw [hpg2]
            simp
          have hids2 : ∀ p ∈ pg2.exchanges,
              p.id ∈ pg.exchanges.map (fun x => x.id) ∨ p.id = r.id := by
            intro p hp
            rw [hpg2] at hp
            rcases List.mem_append.mp hp with hp | hp
            · exact Or.inl (List.mem_map.mpr ⟨p, hp, rfl⟩)
            · rcases List.mem_singleton.mp hp with rfl
              exact Or.inr rfl
          have hfresh2 : ∀ r' ∈ rest, ∀ p ∈ pg2.exchanges, p.id ≠ r'.id := by
            intro r' hr' p hp
            rcases hids2 p hp with h | h
            · rcases List.mem_map.mp h with ⟨q, hq, hqe⟩
              rw [← hqe]
              exact hfresh r' (List.mem_cons_of_mem r hr') q hq
            · rw [h]
              intro he
              apply hndhead
              rw [he]
              exact List.mem_map.mpr ⟨r', hr', rfl⟩
          rcases ih { c with processed := c.processed + 1 } pg2 hnd' hfresh2 with
            ⟨h1, h2, h3, h4, h5⟩
          refine ⟨?_, ?_, ?_, ?_, ?_⟩
          · rw [h1, List.filter_cons_of_pos (by simp [hvr])]
            simp only [List.length_cons]
            omega
          · rw [h2, List.filter_cons_of_neg (by simp [hvr])]
          · rw [h3]
          · rw [h4, List.filter_cons_of_pos (by simp [hvr]), hlen2]
            simp only [List.length_cons]
            omega
          · intro p hp
            rcases h5 p hp with h | h
            · rcases List.mem_map.mp h with ⟨q, hq, hqe⟩
              rcases hids2 q hq with h2 | h2
              · exact Or.inl (hqe ▸ h2)
              · refine Or.inr ?_
                rw [← hqe, h2]
                simp
            · exact Or.inr (by simp [h])

/-- C1: a non-dry-run migration of an embedded store whose N exchange rows
have pairwise-distinct identifiers, of which exactly M carry a vector
entry, into an initially empty server backend reports migrated = M,
skipped = N - M and errors = 0, and afterwards the server backend's
getStats reports totalExchanges = M. -/
theorem migrateToPostgres_counts (src : SqliteState) (pg0 : PgState) (bs : Nat) (now : Int)
    (hbs : 1 ≤ bs)
    (hnd : (src.exchanges.map (fun r => r.id)).Nodup)
    (hpg : pg0.exchanges = []) :
    (migrateToPostgres src pg0 bs false now).1.processed
      = (src.exchanges.filter (hasVec src)).length ∧
    (migrateToPostgres src pg0 bs false now).1.skipped
      = src.exchanges.length - (src.exchanges.filter (hasVec src)).length ∧
    (migrateToPostgres src pg0 bs false now).1.errors = 0 ∧
    pgTotalExchanges (migrateToPostgres src pg0 bs false now).2
      = (src.exchanges.filter (hasVec src)).length := by
  unfold migrateToPostgres
  rw [foldl_chunks]
  have hperm := orderBy_perm (fun a b => tsLe a.timestamp b.timestamp) src.exchanges
  have hndrows : ((orderBy (fun a b => tsLe a.timestamp b.timestamp)
      src.exchanges).map (fun r => r.id)).Nodup :=
    ((hperm.map (fun r => r.id)).nodup_iff).mpr hnd
  have hfresh : ∀ r ∈ orderBy (fun a b => tsLe a.timestamp b.timestamp) src.exchanges,
      ∀ p ∈ pg0.exchanges, p.id ≠ r.id := by
    intro r _ p hp
    rw [hpg] at hp
    exact absurd hp (List.not_mem_nil p)
  rcases migrate_fold_spec src now
    (orderBy (fun a b => tsLe a.timestamp b.timestamp) src.exchanges)
    ⟨0, 0, 0⟩ pg0 hndrows hfresh with ⟨h1, h2, h3, h4, h5⟩
  have hfl : ((orderBy (fun a b => tsLe a.timestamp b.timestamp)
      src.exchanges).filter (hasVec src)).length
      = (src.exchanges.filter (hasVec src)).length := (hperm.filter _).length_eq
  have hfl2 : ((orderBy (fun a b => tsLe a.timestamp b.timestamp)
      src.exchanges).filter (fun r => ! hasVec src r)).length
      = (src.exchanges.filter (fun r => ! hasVec src r)).length := (hperm.filter _).length_eq
  have hsplit := length_filter_split (hasVec src) src.exchanges
  refine ⟨?_, ?_, ?_, ?_⟩
  · rw [h1, hfl]
    simp
  · rw [h2, hfl2]
    simp only [Nat.zero_add]
    omega
  · rw [h3]
  · show (_ : MigrateCounts × PgState).2.exchanges.length = _
    rw [h4, hfl, hpg]
    simp

/-- Witness for the migration-count theorem: three exchanges, two with
vector entries; the run reports 2 migrated, 1 skipped, 0 errors, and the
server backend holds 2 exchanges. -/
theorem migrateToPostgres_counts_witness :
    1 ≤ 100 ∧
    (migCountSrc.exchanges.map (fun r => r.id)).Nodup ∧
    (⟨[], []⟩ : PgState).exchanges = [] ∧
    migCountSrc.exchanges.length = 3 ∧
    (migCountSrc.exchanges.filter (hasVec migCountSrc)).length = 2 ∧
    ((migrateToPostgres migCountSrc ⟨[], []⟩ 100 false 0).1.processed
        = (migCountSrc.exchanges.filter (hasVec migCountSrc)).length ∧
      (migrateToPostgres migCountSrc ⟨[], []⟩ 100 false 0).1.skipped
        = migCountSrc.exchanges.length
            - (migCountSrc.exchanges.filter (hasVec migCountSrc)).length ∧
      (migrateToPostgres migCountSrc ⟨[], []⟩ 100 false 0).1.errors = 0 ∧
      pgTotalExchanges (migrateToPostgres migCountSrc ⟨[], []⟩ 100 false 0).2
        = (migCountSrc.exchanges.filter (hasVec migCountSrc)).length) :=
  ⟨by decide, by decide, rfl, by decide, by decide,
   migrateToPostgres_counts migCountSrc ⟨[], []⟩ 100 0 (by decide) (by decide) rfl⟩

end EpisodicMemory
